import Mathlib

/-!
# Verification of the LiveSPICE sample circuit (`src/sample_circuit.c`)

A shallow embedding of the reference circuit implementation.  Doubles and
floats are modelled by exact rationals (`ℚ`); the C `int` is modelled by `ℤ`,
with explicit 32-bit wrap-around where the source multiplies machine
integers.  Buffers are modelled as total functions `ℕ → ℚ` (input pointers)
and lists (output buffers).  `malloc` outcomes are modelled by an explicit
allocation plan so that the error paths of `circuit_init` can be examined.
-/

namespace LiveSPICE

/-- The parameter array `ctx->parameters`, a C array of three doubles:
`parameters[0]` (Gain), `parameters[1]` (Distortion), `parameters[2]`
(Volume). -/
structure ParamArray where
  p0 : ℚ
  p1 : ℚ
  p2 : ℚ
deriving DecidableEq, Repr

/-- Structure `SampleCircuitState` from `sample_circuit.c`: the opaque internal state. -/
structure SampleCircuitState where
  gain : ℚ
  threshold : ℚ
  makeup_gain : ℚ
  last_output : ℚ
  sample_rate : ℚ
deriving DecidableEq, Repr

/-- Structure `CircuitContext` from `circuit_api.h`. -/
structure CircuitContext where
  internal_state : SampleCircuitState
  sample_rate : ℤ
  buffer_size : ℤ
  timestep : ℚ
  oversample : ℤ
  parameters : ParamArray
  num_parameters : ℤ
deriving DecidableEq, Repr

/-- Function `tube_saturate(x, threshold)` from `sample_circuit.c`, lines 37–45. -/
def tube_saturate (x threshold : ℚ) : ℚ :=
  if x > threshold then
    threshold + (x - threshold) / (1 + (x - threshold) / threshold)
  else if x < -threshold then
    -threshold + (x + threshold) / (1 - (x + threshold) / threshold)
  else
    x

/-- The saturation function exactly as the specification words it
(spec §4.1, "Saturation function (asymmetric tube-style)"), written
independently of the source for the refinement comparison. -/
def spec_saturation (x t : ℚ) : ℚ :=
  if x > t then t + (x - t) / (1 + (x - t) / t)
  else if x < -t then -t + (x + t) / (1 - (x + t) / t)
  else x

/-- Wrap an integer into the range of a 32-bit two's-complement `int`,
modelling C `int` multiplication overflow. -/
def wrap32 (n : ℤ) : ℤ :=
  (n + 2 ^ 31) % 2 ^ 32 - 2 ^ 31

/-- The three allocations `circuit_init` performs, in source order:
the `CircuitContext`, the `SampleCircuitState`, the `parameters` array. -/
structure AllocPlan where
  ctxOk : Bool
  stateOk : Bool
  paramsOk : Bool
deriving DecidableEq, Repr

/-- A heap piece allocated by `circuit_init`. -/
inductive Piece where
  | ctxPiece
  | statePiece
  | paramsPiece
deriving DecidableEq, Repr

/-- Outcome of `circuit_init`: a non-null context, a `NULL` return, or
undefined behaviour (a write through a null pointer).  `live` records the
heap pieces still allocated when the function leaves. -/
inductive InitOutcome where
  | ok (ctx : CircuitContext) (live : List Piece)
  | null (live : List Piece)
  | crash (live : List Piece)
deriving DecidableEq, Repr

/-- The context built by a fully successful `circuit_init`
(`sample_circuit.c`, lines 50–87): state defaults, `timestep`
computed from the machine-integer product, parameter defaults. -/
def initCtx (sample_rate buffer_size oversample : ℤ) : CircuitContext :=
  { internal_state :=
      { gain := 1
        threshold := 1/2
        makeup_gain := 7/10
        last_output := 0
        sample_rate := (sample_rate : ℚ) }
    sample_rate := sample_rate
    buffer_size := buffer_size
    timestep := 1 / ((wrap32 (sample_rate * oversample) : ℤ) : ℚ)
    oversample := oversample
    parameters := { p0 := 1/2, p1 := 1/2, p2 := 7/10 }
    num_parameters := 3 }

/-- Function `circuit_init` from `sample_circuit.c`, lines 50–87, with `malloc`
outcomes given by `plan`.  The source checks the context and state
allocations (freeing the context before returning `NULL` when the state
allocation fails) but writes `ctx->parameters[0] = 0.5` without checking
the `parameters` allocation: a failed third allocation is a null-pointer
write. -/
def circuit_init (plan : AllocPlan) (sample_rate buffer_size oversample : ℤ) :
    InitOutcome :=
  if plan.ctxOk = false then
    -- `if (!ctx) return NULL;` — nothing allocated yet
    .null []
  else if plan.stateOk = false then
    -- `if (!state) { free(ctx); return NULL; }` — the context is freed
    .null []
  else if plan.paramsOk = false then
    -- `ctx->parameters = malloc(...)` unchecked; `ctx->parameters[0] = 0.5`
    -- dereferences NULL while the context and state are still allocated
    .crash [.ctxPiece, .statePiece]
  else
    .ok (initCtx sample_rate buffer_size oversample) [.ctxPiece, .statePiece, .paramsPiece]

/-- The fixed `parameter_names` table of `sample_circuit.c`. -/
def parameter_names : List String := ["Gain", "Distortion", "Volume"]

/-- Constant `num_params` from `sample_circuit.c`. -/
def num_params : ℤ := 3

/-- The clamp of `circuit_set_parameter` (lines 150–152):
`if (value < 0.0) value = 0.0; if (value > 1.0) value = 1.0;`. -/
def clampParam (value : ℚ) : ℚ :=
  let value := if value < 0 then 0 else value
  if value > 1 then 1 else value

/-- Function `circuit_set_parameter` from `sample_circuit.c`, lines 146–160: clamp
the value into `[0, 1]`, then store it under the matching name; an
unrecognized name stores nothing. -/
def circuit_set_parameter (ctx : CircuitContext) (name : String) (value : ℚ) :
    CircuitContext :=
  let value := clampParam value
  if name = "Gain" then
    { ctx with parameters := { ctx.parameters with p0 := value } }
  else if name = "Distortion" then
    { ctx with parameters := { ctx.parameters with p1 := value } }
  else if name = "Volume" then
    { ctx with parameters := { ctx.parameters with p2 := value } }
  else
    ctx

/-- Function `circuit_get_parameter` from `sample_circuit.c`, lines 165–177. -/
def circuit_get_parameter (ctx : CircuitContext) (name : String) : ℚ :=
  if name = "Gain" then ctx.parameters.p0
  else if name = "Distortion" then ctx.parameters.p1
  else if name = "Volume" then ctx.parameters.p2
  else 0

/-- Function `circuit_get_num_parameters` from `sample_circuit.c`. -/
def circuit_get_num_parameters (_ctx : CircuitContext) : ℤ := num_params

/-- Function `circuit_get_parameter_name` from `sample_circuit.c`, lines 189–194:
`NULL` (here `none`) for an index outside `[0, num_params)`. -/
def circuit_get_parameter_name (_ctx : CircuitContext) (index : ℤ) :
    Option String :=
  if 0 ≤ index ∧ index < num_params then
    some (parameter_names.getD index.toNat "")
  else
    none

/-- C3: the saturation function of the code equals the spec's reference
definition: for every `x` and every threshold `t > 0`, `tube_saturate x t`
is `t + (x − t)/(1 + (x − t)/t)` when `x > t`, is
`−t + (x + t)/(1 − (x + t)/t)` when `x < −t`, and is `x` otherwise; at the
boundaries `x = t` and `x = −t` the output is exactly `t` resp. `−t`. -/
theorem tube_saturate_matches_spec (x t : ℚ) (ht : 0 < t) :
    tube_saturate x t = spec_saturation x t ∧
    (x > t → tube_saturate x t = t + (x - t) / (1 + (x - t) / t)) ∧
    (x < -t → tube_saturate x t = -t + (x + t) / (1 - (x + t) / t)) ∧
    (¬ x > t → ¬ x < -t → tube_saturate x t = x) ∧
    tube_saturate t t = t ∧
    tube_saturate (-t) t = -t := by
  refine ⟨rfl, ?_, ?_, ?_, ?_, ?_⟩
  · intro h
    simp only [tube_saturate, if_pos h]
  · intro h
    have h2 : ¬ x > t := by
      have : -t < t := by linarith
      intro hc; linarith
    simp only [tube_saturate, if_neg h2, if_pos h]
  · intro h1 h2
    simp only [tube_saturate, if_neg h1, if_neg h2]
  · have h1 : ¬ t > t := lt_irrefl t
    have h2 : ¬ t < -t := by intro hc; linarith
    simp only [tube_saturate, if_neg h1, if_neg h2]
  · have h1 : ¬ -t > t := by intro hc; linarith
    have h2 : ¬ -t < -t := lt_irrefl (-t)
    simp only [tube_saturate, if_neg h1, if_neg h2]

/-- Witness for C3 at `x = 2`, `t = 1/2`. -/
theorem tube_saturate_matches_spec_witness :
    (0:ℚ) < 1/2 ∧
    (tube_saturate 2 (1/2) = spec_saturation 2 (1/2) ∧
    ((2:ℚ) > 1/2 → tube_saturate 2 (1/2) = 1/2 + (2 - 1/2) / (1 + (2 - 1/2) / (1/2))) ∧
    ((2:ℚ) < -(1/2) → tube_saturate 2 (1/2) = -(1/2) + (2 + 1/2) / (1 - (2 + 1/2) / (1/2))) ∧
    (¬ (2:ℚ) > 1/2 → ¬ (2:ℚ) < -(1/2) → tube_saturate 2 (1/2) = 2) ∧
    tube_saturate (1/2) (1/2) = 1/2 ∧
    tube_saturate (-(1/2)) (1/2) = -(1/2)) :=
  ⟨by norm_num, tube_saturate_matches_spec 2 (1/2) (by norm_num)⟩

/-- The gain remap of `circuit_process`: `0.5 + parameters[0] * 9.5`. -/
def processGain (ctx : CircuitContext) : ℚ := 1/2 + ctx.parameters.p0 * (19/2)

/-- The distortion-threshold remap of `circuit_process`:
`0.1 + parameters[1] * 0.9`. -/
def processThreshold (ctx : CircuitContext) : ℚ := 1/10 + ctx.parameters.p1 * (9/10)

/-- The volume remap of `circuit_process`: `parameters[2]`. -/
def processVolume (ctx : CircuitContext) : ℚ := ctx.parameters.p2

/-- One iteration of the inner oversampling loop of `circuit_process`
(lines 118–131): amplify, saturate, apply makeup gain, then blend 50/50
with the previous `last_output` and store the blend.  The pair is
`(processed, last_output)`. -/
def os_iter (gain threshold makeup sample : ℚ) (pl : ℚ × ℚ) : ℚ × ℚ :=
  let amplified := sample * gain
  let distorted := tube_saturate amplified threshold
  let processed := distorted * makeup
  let blended := 1/2 * processed + 1/2 * pl.2
  (blended, blended)

/-- The inner oversampling loop run `n` times from `(processed, last)`. -/
def os_loop (gain threshold makeup sample : ℚ) (pl : ℚ × ℚ) : ℕ → ℚ × ℚ
  | 0 => pl
  | n + 1 => os_iter gain threshold makeup sample (os_loop gain threshold makeup sample pl n)

/-- One output sample of `circuit_process`: run the oversampling loop
`oversample` times starting from `processed = 0` and the carried
`last_output`, then divide the final blend by `oversample`.  Returns
`(output sample, new last_output)`. -/
def process_sample (gain threshold makeup : ℚ) (os : ℤ) (sample last : ℚ) : ℚ × ℚ :=
  let r := os_loop gain threshold makeup sample (0, last) os.toNat
  (r.1 / (os : ℚ), r.2)

/-- The per-sample loop of `circuit_process`: starting at sample index `i`,
process `n` samples, reading `input[i * nc]` (the first channel of frame
`i`) and threading `last_output`.  Returns the list of mono output values
and the final `last_output`. -/
def process_loop (gain threshold makeup : ℚ) (os : ℤ) (nc : ℕ) (input : ℕ → ℚ) :
    ℕ → ℕ → ℚ → List ℚ × ℚ
  | _, 0, last => ([], last)
  | i, n + 1, last =>
    let r := process_sample gain threshold makeup os (input (i * nc)) last
    let rest := process_loop gain threshold makeup os nc input (i + 1) n r.2
    (r.1 :: rest.1, rest.2)

/-- The output-buffer write of `circuit_process` (lines 136–139): each
mono value is written to all `nc` channels of its frame. -/
def interleave_out (nc : ℕ) : List ℚ → List ℚ
  | [] => []
  | x :: rest => List.replicate nc x ++ interleave_out nc rest

/-- Function `circuit_process` from `sample_circuit.c`, lines 92–141: remap the
parameters, store them into the internal state, process `num_samples`
frames reading channel 0 of `input` and writing every channel of the
output, threading `last_output` through the oversampling filter.  Returns
the output buffer and the updated context. -/
def circuit_process (ctx : CircuitContext) (input : ℕ → ℚ)
    (num_samples num_channels : ℕ) : List ℚ × CircuitContext :=
  (interleave_out num_channels
    (process_loop (processGain ctx) (processThreshold ctx) (processVolume ctx)
      ctx.oversample num_channels input 0 num_samples
      ctx.internal_state.last_output).1,
   { ctx with
      internal_state :=
        { gain := processGain ctx
          threshold := processThreshold ctx
          makeup_gain := processVolume ctx
          last_output :=
            (process_loop (processGain ctx) (processThreshold ctx) (processVolume ctx)
              ctx.oversample num_channels input 0 num_samples
              ctx.internal_state.last_output).2
          sample_rate := ctx.internal_state.sample_rate } })

/-- An operation a host may perform on a live instance between creation
and cleanup: a `SetParameter` call or a `Process` call. -/
inductive HostOp where
  | setParam (name : String) (value : ℚ)
  | processBuf (input : ℕ → ℚ) (numSamples numChannels : ℕ)

/-- Apply one host operation to a context. -/
def applyOp (ctx : CircuitContext) : HostOp → CircuitContext
  | .setParam name value => circuit_set_parameter ctx name value
  | .processBuf input ns nc => (circuit_process ctx input ns nc).2

/-- Apply a sequence of host operations. -/
def applyOps (ctx : CircuitContext) (ops : List HostOp) : CircuitContext :=
  ops.foldl applyOp ctx

/-- All three stored parameters lie in `[0, 1]`. -/
def paramsInRange (p : ParamArray) : Prop :=
  0 ≤ p.p0 ∧ p.p0 ≤ 1 ∧ 0 ≤ p.p1 ∧ p.p1 ≤ 1 ∧ 0 ≤ p.p2 ∧ p.p2 ≤ 1

lemma wrap32_eq_of_bounds (n : ℤ) (h1 : -2 ^ 31 ≤ n) (h2 : n < 2 ^ 31) :
    wrap32 n = n := by
  unfold wrap32
  rw [Int.emod_eq_of_lt (by linarith) (by linarith)]
  ring

/-- C2 counterexample: when the unchecked `parameters` allocation fails
(the first two succeed), `circuit_init` does not return `NULL` with all
pieces released — it writes through a null pointer while the context and
state are still allocated. -/
theorem create_params_alloc_crash :
    circuit_init { ctxOk := true, stateOk := true, paramsOk := false } 48000 256 8 =
      .crash [.ctxPiece, .statePiece] := rfl

/-- C2 (amended): if the allocation of the instance record or of its
internal state fails, `circuit_init` returns `NULL` with every
already-allocated piece released; the `parameters` allocation is not
checked and is outside this guarantee. -/
theorem create_atomic_amended (plan : AllocPlan) (sr bs os : ℤ)
    (h : plan.ctxOk = false ∨ plan.stateOk = false) :
    circuit_init plan sr bs os = .null [] := by
  unfold circuit_init
  rcases h with h | h
  · rw [if_pos h]
  · by_cases hc : plan.ctxOk = false
    · rw [if_pos hc]
    · rw [if_neg hc, if_pos h]

/-- Witness for the amended C2: a failed state allocation yields `NULL`
with nothing leaked. -/
theorem create_atomic_amended_witness :
    circuit_init { ctxOk := true, stateOk := false, paramsOk := true } 48000 256 8 =
      .null [] :=
  create_atomic_amended { ctxOk := true, stateOk := false, paramsOk := true }
    48000 256 8 (Or.inr rfl)

/-- C9: for a successful `Create` with `sampleRate > 0` and
`oversampleFactor ≥ 1`, the stored `timestep` equals
`1 / (sampleRate × oversampleFactor)` with the product computed in
32-bit machine integer arithmetic; when the product fits in a 32-bit
`int` this is exactly `1 / (sampleRate × oversampleFactor)`. -/
theorem timestep_derivation (sr bs os : ℤ) (c : CircuitContext) (live : List Piece)
    (hsr : 0 < sr) (hos : 1 ≤ os)
    (h : circuit_init { ctxOk := true, stateOk := true, paramsOk := true } sr bs os =
      .ok c live) :
    c.timestep = 1 / ((wrap32 (sr * os) : ℤ) : ℚ) ∧
    (sr * os < 2 ^ 31 → c.timestep = 1 / ((sr : ℚ) * (os : ℚ))) := by
  have hc : c = initCtx sr bs os := by
    unfold circuit_init at h
    simp only [Bool.true_eq_false, if_false] at h
    exact (InitOutcome.ok.injEq _ _ _ _).mp h |>.1.symm
  subst hc
  refine ⟨rfl, fun hfit => ?_⟩
  have hpos : 0 < sr * os := mul_pos hsr (by omega)
  have hw : wrap32 (sr * os) = sr * os :=
    wrap32_eq_of_bounds _ (by linarith) hfit
  show 1 / ((wrap32 (sr * os) : ℤ) : ℚ) = 1 / ((sr : ℚ) * (os : ℚ))
  rw [hw]
  push_cast
  rfl

/-- Witness for C9 at `sampleRate = 48000`, `oversample = 8`. -/
theorem timestep_derivation_witness :
    (initCtx 48000 256 8).timestep = 1 / ((wrap32 (48000 * 8) : ℤ) : ℚ) ∧
    (initCtx 48000 256 8).timestep = 1 / ((48000 : ℚ) * (8 : ℚ)) :=
  ⟨(timestep_derivation 48000 256 8 (initCtx 48000 256 8)
      [.ctxPiece, .statePiece, .paramsPiece] (by norm_num) (by norm_num) rfl).1,
   (timestep_derivation 48000 256 8 (initCtx 48000 256 8)
      [.ctxPiece, .statePiece, .paramsPiece] (by norm_num) (by norm_num) rfl).2
      (by norm_num)⟩

/-- C10: `circuit_init` validates no argument: for every `sampleRate`,
`bufferSizeHint` and `oversampleFactor` — zero and negative included — it
returns a non-null instance whenever all its allocations succeed, and it
returns `NULL` only when the instance-record or internal-state allocation
failed, never because of argument values. -/
theorem create_no_validation (sr bs os : ℤ) :
    circuit_init { ctxOk := true, stateOk := true, paramsOk := true } sr bs os =
      .ok (initCtx sr bs os) [.ctxPiece, .statePiece, .paramsPiece] ∧
    ∀ plan : AllocPlan, ∀ live : List Piece,
      circuit_init plan sr bs os = .null live →
      plan.ctxOk = false ∨ plan.stateOk = false := by
  refine ⟨rfl, fun plan live h => ?_⟩
  by_cases hc : plan.ctxOk = false
  · exact Or.inl hc
  · by_cases hs : plan.stateOk = false
    · exact Or.inr hs
    · exfalso
      unfold circuit_init at h
      rw [if_neg hc, if_neg hs] at h
      by_cases hp : plan.paramsOk = false
      · rw [if_pos hp] at h
        exact InitOutcome.noConfusion h
      · rw [if_neg hp] at h
        exact InitOutcome.noConfusion h

/-- Witness for C10 at arguments that violate the spec's constraints
(`sampleRate = 0`, `oversample = -3`): creation still succeeds. -/
theorem create_no_validation_witness :
    circuit_init { ctxOk := true, stateOk := true, paramsOk := true } 0 (-1) (-3) =
      .ok (initCtx 0 (-1) (-3)) [.ctxPiece, .statePiece, .paramsPiece] :=
  (create_no_validation 0 (-1) (-3)).1

/-- C6: for each recognized parameter name, `SetParameter` with a value
below `0` stores exactly `0` and with a value above `1` stores exactly `1`,
as observed through `GetParameter`. -/
theorem clamp_roundtrip (ctx : CircuitContext) (name : String) (v : ℚ)
    (hname : name ∈ parameter_names) :
    (v < 0 → circuit_get_parameter (circuit_set_parameter ctx name v) name = 0) ∧
    (v > 1 → circuit_get_parameter (circuit_set_parameter ctx name v) name = 1) := by
  have hlo : v < 0 → clampParam v = 0 := by
    intro h
    unfold clampParam
    rw [if_pos h]
    norm_num
  have hhi : v > 1 → clampParam v = 1 := by
    intro h
    unfold clampParam
    rw [if_neg (show ¬ v < 0 by linarith)]
    rw [if_pos h]
  fin_cases hname <;> exact ⟨fun h => hlo h, fun h => hhi h⟩

/-- Witness for C6 on the "Distortion" parameter with the default context. -/
theorem clamp_roundtrip_witness :
    circuit_get_parameter
      (circuit_set_parameter (initCtx 48000 256 8) "Distortion" (-2)) "Distortion" = 0 ∧
    circuit_get_parameter
      (circuit_set_parameter (initCtx 48000 256 8) "Distortion" (3/2)) "Distortion" = 1 :=
  ⟨(clamp_roundtrip (initCtx 48000 256 8) "Distortion" (-2) (by decide)).1 (by norm_num),
   (clamp_roundtrip (initCtx 48000 256 8) "Distortion" (3/2) (by decide)).2 (by norm_num)⟩

/-- C7: an unrecognized name makes `SetParameter` a no-op and makes
`GetParameter` return `0`, and an out-of-range index makes
`GetParameterName` return `none` — never a fault. -/
theorem unknown_inputs_absorbed (ctx : CircuitContext) (name : String) (v : ℚ)
    (idx : ℤ) (hname : name ∉ parameter_names) (hidx : idx < 0 ∨ num_params ≤ idx) :
    circuit_set_parameter ctx name v = ctx ∧
    circuit_get_parameter ctx name = 0 ∧
    circuit_get_parameter_name ctx idx = none := by
  have h1 : ¬ name = "Gain" := fun h => hname (h ▸ by decide)
  have h2 : ¬ name = "Distortion" := fun h => hname (h ▸ by decide)
  have h3 : ¬ name = "Volume" := fun h => hname (h ▸ by decide)
  refine ⟨?_, ?_, ?_⟩
  · simp only [circuit_set_parameter, if_neg h1, if_neg h2, if_neg h3]
  · simp only [circuit_get_parameter, if_neg h1, if_neg h2, if_neg h3]
  · have : ¬ (0 ≤ idx ∧ idx < num_params) := by
      unfold num_params at hidx ⊢
      omega
    simp only [circuit_get_parameter_name, if_neg this]

/-- Witness for C7 with name "Tone" and index 5. -/
theorem unknown_inputs_absorbed_witness :
    circuit_set_parameter (initCtx 48000 256 8) "Tone" (3/4) = initCtx 48000 256 8 ∧
    circuit_get_parameter (initCtx 48000 256 8) "Tone" = 0 ∧
    circuit_get_parameter_name (initCtx 48000 256 8) 5 = none :=
  unknown_inputs_absorbed (initCtx 48000 256 8) "Tone" (3/4) 5 (by decide)
    (Or.inr (by norm_num [num_params]))

lemma clampParam_in_range (v : ℚ) : 0 ≤ clampParam v ∧ clampParam v ≤ 1 := by
  unfold clampParam
  by_cases h0 : v < 0
  · rw [if_pos h0]
    norm_num
  · rw [if_neg h0]
    by_cases h1 : v > 1
    · rw [if_pos h1]
      norm_num
    · rw [if_neg h1]
      constructor <;> linarith

lemma setParam_preserves_range (ctx : CircuitContext) (name : String) (v : ℚ)
    (h : paramsInRange ctx.parameters) :
    paramsInRange (circuit_set_parameter ctx name v).parameters := by
  obtain ⟨hc0, hc1⟩ := clampParam_in_range v
  obtain ⟨h1, h2, h3, h4, h5, h6⟩ := h
  unfold circuit_set_parameter
  split_ifs
  · exact ⟨hc0, hc1, h3, h4, h5, h6⟩
  · exact ⟨h1, h2, hc0, hc1, h5, h6⟩
  · exact ⟨h1, h2, h3, h4, hc0, hc1⟩
  · exact ⟨h1, h2, h3, h4, h5, h6⟩

lemma process_preserves_params (ctx : CircuitContext) (input : ℕ → ℚ)
    (ns nc : ℕ) : (circuit_process ctx input ns nc).2.parameters = ctx.parameters :=
  rfl

lemma applyOps_preserves_range (ctx : CircuitContext) (ops : List HostOp)
    (h : paramsInRange ctx.parameters) :
    paramsInRange (applyOps ctx ops).parameters := by
  induction ops generalizing ctx with
  | nil => exact h
  | cons op rest ih =>
    refine ih (applyOp ctx op) ?_
    cases op with
    | setParam name v => exact setParam_preserves_range ctx name v h
    | processBuf input ns nc => exact h

/-- C4: after creation and any sequence of `SetParameter`/`Process` calls,
every stored parameter lies in `[0, 1]`, and the threshold
`0.1 + parameters[1] × 0.9` computed by `Process` satisfies
`0.1 ≤ threshold ≤ 1`, in particular it is strictly positive, so the
divisions by the threshold inside `tube_saturate` never divide by zero. -/
theorem param_range_invariant (sr bs os : ℤ) (ops : List HostOp) :
    paramsInRange (applyOps (initCtx sr bs os) ops).parameters ∧
    1/10 ≤ processThreshold (applyOps (initCtx sr bs os) ops) ∧
    processThreshold (applyOps (initCtx sr bs os) ops) ≤ 1 ∧
    0 < processThreshold (applyOps (initCtx sr bs os) ops) := by
  have hinit : paramsInRange (initCtx sr bs os).parameters := by
    unfold initCtx paramsInRange
    norm_num
  have hr := applyOps_preserves_range (initCtx sr bs os) ops hinit
  obtain ⟨h1, h2, h3, h4, h5, h6⟩ := hr
  refine ⟨⟨h1, h2, h3, h4, h5, h6⟩, ?_, ?_, ?_⟩ <;> unfold processThreshold <;> nlinarith

lemma process_loop_split (g t m : ℚ) (os : ℤ) (nc : ℕ) (input : ℕ → ℚ)
    (n : ℕ) : ∀ (i k : ℕ) (last : ℚ),
    process_loop g t m os nc input i (n + k) last =
      ((process_loop g t m os nc input i n last).1 ++
        (process_loop g t m os nc input (i + n) k
          (process_loop g t m os nc input i n last).2).1,
       (process_loop g t m os nc input (i + n) k
         (process_loop g t m os nc input i n last).2).2) := by
  induction n with
  | zero =>
    intro i k last
    simp only [Nat.zero_add, Nat.add_zero]
    rfl
  | succ n ih =>
    intro i k last
    rw [Nat.succ_add]
    show (_, _) = _
    rw [ih (i + 1) k]
    simp only [process_loop]
    rw [show i + (n + 1) = i + 1 + n from by omega]
    simp only [List.cons_append]

lemma process_loop_shift (g t m : ℚ) (os : ℤ) (nc N : ℕ) (input : ℕ → ℚ)
    (n : ℕ) : ∀ (i : ℕ) (last : ℚ),
    process_loop g t m os nc (fun k => input (N * nc + k)) i n last =
      process_loop g t m os nc input (N + i) n last := by
  induction n with
  | zero => intro i last; rfl
  | succ n ih =>
    intro i last
    simp only [process_loop]
    rw [show N * nc + i * nc = (N + i) * nc from (Nat.add_mul N i nc).symm]
    rw [ih (i + 1), ← Nat.add_assoc]

lemma interleave_out_append (nc : ℕ) (l1 l2 : List ℚ) :
    interleave_out nc (l1 ++ l2) = interleave_out nc l1 ++ interleave_out nc l2 := by
  induction l1 with
  | nil => rfl
  | cons x rest ih =>
    show List.replicate nc x ++ interleave_out nc (rest ++ l2) = _
    rw [ih]
    simp only [interleave_out, List.append_assoc]

lemma circuit_process_append (ctx : CircuitContext) (input : ℕ → ℚ) (N M nc : ℕ) :
    (circuit_process ctx input N nc).1 ++
      (circuit_process (circuit_process ctx input N nc).2
        (fun k => input (N * nc + k)) M nc).1 =
      (circuit_process ctx input (N + M) nc).1 ∧
    (circuit_process (circuit_process ctx input N nc).2
      (fun k => input (N * nc + k)) M nc).2 =
      (circuit_process ctx input (N + M) nc).2 := by
  have hshift := process_loop_shift (processGain ctx) (processThreshold ctx)
    (processVolume ctx) ctx.oversample nc N input M 0
    (process_loop (processGain ctx) (processThreshold ctx) (processVolume ctx)
      ctx.oversample nc input 0 N ctx.internal_state.last_output).2
  rw [Nat.add_zero] at hshift
  have hsplit := process_loop_split (processGain ctx) (processThreshold ctx)
    (processVolume ctx) ctx.oversample nc input N 0 M ctx.internal_state.last_output
  rw [Nat.zero_add] at hsplit
  simp only [circuit_process, processGain, processThreshold, processVolume]
    at hshift hsplit ⊢
  rw [hshift, hsplit]
  constructor
  · simp [interleave_out_append]
  · rfl

/-- C1: state continuity across buffers.  Processing `N` frames and then,
from the returned context, the next `M` frames of the same interleaved
signal (the second call reads the buffer starting at offset `N × nc`)
yields exactly the output samples of one `Process` call over all `N + M`
frames, and the same final context — the `last_output` filter state stored
in the internal state carries across the calls. -/
theorem state_continuity (ctx : CircuitContext) (input : ℕ → ℚ) (N M nc : ℕ) :
    (circuit_process ctx input N nc).1 ++
      (circuit_process (circuit_process ctx input N nc).2
        (fun k => input (N * nc + k)) M nc).1 =
      (circuit_process ctx input (N + M) nc).1 ∧
    (circuit_process (circuit_process ctx input N nc).2
      (fun k => input (N * nc + k)) M nc).2 =
      (circuit_process ctx input (N + M) nc).2 :=
  circuit_process_append ctx input N M nc

lemma process_loop_length (g t m : ℚ) (os : ℤ) (nc : ℕ) (input : ℕ → ℚ)
    (n : ℕ) : ∀ (i : ℕ) (last : ℚ),
    (process_loop g t m os nc input i n last).1.length = n := by
  induction n with
  | zero => intro i last; rfl
  | succ n ih =>
    intro i last
    simp only [process_loop, List.length_cons, ih]

lemma process_loop_congr (g t m : ℚ) (os : ℤ) (nc : ℕ) (input input' : ℕ → ℚ)
    (n : ℕ) : ∀ (i : ℕ) (last : ℚ),
    (∀ j, j < n → input ((i + j) * nc) = input' ((i + j) * nc)) →
    process_loop g t m os nc input i n last =
      process_loop g t m os nc input' i n last := by
  induction n with
  | zero => intro i last _; rfl
  | succ n ih =>
    intro i last h
    have h0 : input (i * nc) = input' (i * nc) := by
      simpa using h 0 (Nat.succ_pos n)
    have hrec : ∀ j, j < n → input ((i + 1 + j) * nc) = input' ((i + 1 + j) * nc) := by
      intro j hj
      have := h (j + 1) (by omega)
      rwa [show i + (j + 1) = i + 1 + j from by omega] at this
    simp only [process_loop, h0]
    rw [ih (i + 1) _ hrec]

lemma getD_replicate (nc : ℕ) (x : ℚ) (ch : ℕ) (h : ch < nc) :
    (List.replicate nc x).getD ch 0 = x := by
  rw [List.getD_eq_getElem _ _ (by simpa using h)]
  simp

lemma interleave_getD (nc : ℕ) (l : List ℚ) :
    ∀ (i ch : ℕ), ch < nc → i < l.length →
    (interleave_out nc l).getD (i * nc + ch) 0 = l.getD i 0 := by
  induction l with
  | nil => intro i ch _ hi; simp at hi
  | cons x rest ih =>
    intro i ch hch hi
    cases i with
    | zero =>
      show (List.replicate nc x ++ interleave_out nc rest).getD (0 * nc + ch) 0 = x
      rw [Nat.zero_mul, Nat.zero_add]
      rw [List.getD_append _ _ _ _ (by simpa using hch)]
      exact getD_replicate nc x ch hch
    | succ j =>
      have e1 : (j + 1) * nc + ch = nc + (j * nc + ch) := by ring
      show (List.replicate nc x ++ interleave_out nc rest).getD ((j + 1) * nc + ch) 0 =
        rest.getD j 0
      rw [e1, List.getD_append_right _ _ _ _ (by simp)]
      simp only [List.length_replicate, Nat.add_sub_cancel_left]
      exact ih j ch hch (by simpa using hi)

/-- C5: the engine reads only channel 0 of the input — two input buffers
agreeing on channel 0 of every frame produce the same result — and within
every output frame all `nc` channel values are identical copies of the
processed mono sample. -/
theorem mono_source_channel_replication (ctx : CircuitContext)
    (input input' : ℕ → ℚ) (n nc : ℕ) (hnc : 1 ≤ nc)
    (hagree : ∀ i, i < n → input (i * nc) = input' (i * nc)) :
    circuit_process ctx input n nc = circuit_process ctx input' n nc ∧
    ∀ i ch, i < n → ch < nc →
      (circuit_process ctx input n nc).1.getD (i * nc + ch) 0 =
        (circuit_process ctx input n nc).1.getD (i * nc) 0 := by
  have hloop : process_loop (processGain ctx) (processThreshold ctx)
      (processVolume ctx) ctx.oversample nc input 0 n
      ctx.internal_state.last_output =
      process_loop (processGain ctx) (processThreshold ctx) (processVolume ctx)
        ctx.oversample nc input' 0 n ctx.internal_state.last_output := by
    apply process_loop_congr
    intro j hj
    simpa using hagree j hj
  constructor
  · unfold circuit_process
    rw [hloop]
  · intro i ch hi hch
    show (interleave_out nc (process_loop (processGain ctx) (processThreshold ctx)
        (processVolume ctx) ctx.oversample nc input 0 n
        ctx.internal_state.last_output).1).getD (i * nc + ch) 0 =
      (interleave_out nc (process_loop (processGain ctx) (processThreshold ctx)
        (processVolume ctx) ctx.oversample nc input 0 n
        ctx.internal_state.last_output).1).getD (i * nc) 0
    have hlen : i < (process_loop (processGain ctx) (processThreshold ctx)
        (processVolume ctx) ctx.oversample nc input 0 n
        ctx.internal_state.last_output).1.length := by
      rw [process_loop_length]
      exact hi
    have h2 := interleave_getD nc (process_loop (processGain ctx)
      (processThreshold ctx) (processVolume ctx) ctx.oversample nc input 0 n
      ctx.internal_state.last_output).1 i 0 (by omega) hlen
    rw [Nat.add_zero] at h2
    rw [interleave_getD nc _ i ch hch hlen, h2]

/-- Witness for C5 with two 2-channel inputs that differ only off
channel 0. -/
theorem mono_source_channel_replication_witness :
    circuit_process (initCtx 48000 256 8)
        (fun k => if k % 2 = 0 then (1:ℚ) else 0) 2 2 =
      circuit_process (initCtx 48000 256 8)
        (fun k => if k % 2 = 0 then (1:ℚ) else 5) 2 2 ∧
    ∀ i ch, i < 2 → ch < 2 →
      (circuit_process (initCtx 48000 256 8)
        (fun k => if k % 2 = 0 then (1:ℚ) else 0) 2 2).1.getD (i * 2 + ch) 0 =
        (circuit_process (initCtx 48000 256 8)
          (fun k => if k % 2 = 0 then (1:ℚ) else 0) 2 2).1.getD (i * 2) 0 :=
  mono_source_channel_replication (initCtx 48000 256 8)
    (fun k => if k % 2 = 0 then (1:ℚ) else 0)
    (fun k => if k % 2 = 0 then (1:ℚ) else 5) 2 2 (by norm_num)
    (by intro i hi; interval_cases i <;> norm_num)

lemma tube_saturate_zero (t : ℚ) (ht : 0 ≤ t) : tube_saturate 0 t = 0 := by
  unfold tube_saturate
  rw [if_neg (show ¬ (0:ℚ) > t by linarith), if_neg (show ¬ (0:ℚ) < -t by linarith)]

lemma os_iter_zero (g t m : ℚ) (ht : 0 ≤ t) (pl : ℚ × ℚ) :
    os_iter g t m 0 pl = (pl.2 / 2, pl.2 / 2) := by
  show (1/2 * (tube_saturate (0 * g) t * m) + 1/2 * pl.2,
        1/2 * (tube_saturate (0 * g) t * m) + 1/2 * pl.2) = _
  rw [zero_mul, tube_saturate_zero t ht, zero_mul]
  simp only [Prod.mk.injEq]
  constructor <;> ring

lemma os_loop_zero (g t m : ℚ) (ht : 0 ≤ t) (p0 last : ℚ) (k : ℕ) :
    os_loop g t m 0 (p0, last) (k + 1) =
      (last / 2 ^ (k + 1), last / 2 ^ (k + 1)) := by
  induction k with
  | zero =>
    show os_iter g t m 0 (p0, last) = _
    rw [os_iter_zero g t m ht]
    norm_num
  | succ k ih =>
    show os_iter g t m 0 (os_loop g t m 0 (p0, last) (k + 1)) = _
    rw [ih, os_iter_zero g t m ht]
    simp only [Prod.mk.injEq]
    constructor <;> rw [div_div, ← pow_succ]

lemma process_sample_zero (g t m : ℚ) (os : ℤ) (hos : 1 ≤ os) (ht : 0 ≤ t)
    (last : ℚ) :
    process_sample g t m os 0 last =
      (last / 2 ^ os.toNat / (os : ℚ), last / 2 ^ os.toNat) := by
  unfold process_sample
  obtain ⟨k, hk⟩ : ∃ k, os.toNat = k + 1 := ⟨os.toNat - 1, by omega⟩
  rw [hk, os_loop_zero g t m ht 0 last k]

lemma process_loop_zero_last (g t m : ℚ) (os : ℤ) (nc : ℕ) (hos : 1 ≤ os)
    (ht : 0 ≤ t) : ∀ (n i : ℕ) (last : ℚ),
    (process_loop g t m os nc (fun _ => 0) i n last).2 =
      last / 2 ^ (os.toNat * n) := by
  intro n
  induction n with
  | zero =>
    intro i last
    show last = last / 2 ^ (os.toNat * 0)
    rw [Nat.mul_zero, pow_zero, div_one]
  | succ k ih =>
    intro i last
    have h2 : (process_sample g t m os 0 last).2 = last / 2 ^ os.toNat := by
      simp [process_sample_zero g t m os hos ht]
    show (process_loop g t m os nc (fun _ => 0) (i + 1) k
      (process_sample g t m os 0 last).2).2 = _
    rw [h2, ih (i + 1), div_div, ← pow_add]
    congr 1
    ring

lemma process_loop_zero_getD (g t m : ℚ) (os : ℤ) (nc : ℕ) (hos : 1 ≤ os)
    (ht : 0 ≤ t) : ∀ (n j i : ℕ) (last : ℚ), j < n →
    (process_loop g t m os nc (fun _ => 0) i n last).1.getD j 0 =
      last / 2 ^ (os.toNat * (j + 1)) / (os : ℚ) := by
  intro n
  induction n with
  | zero => intro j i last hj; omega
  | succ k ih =>
    intro j i last hj
    have hh1 : (process_sample g t m os 0 last).1 =
        last / 2 ^ os.toNat / (os : ℚ) := by
      simp [process_sample_zero g t m os hos ht]
    have hh2 : (process_sample g t m os 0 last).2 = last / 2 ^ os.toNat := by
      simp [process_sample_zero g t m os hos ht]
    cases j with
    | zero =>
      show (process_sample g t m os 0 last).1 = _
      rw [hh1]
      norm_num
    | succ j =>
      show (process_loop g t m os nc (fun _ => 0) (i + 1) k
        (process_sample g t m os 0 last).2).1.getD j 0 = _
      rw [hh2, ih j (i + 1) _ (by omega)]
      have he : os.toNat + os.toNat * (j + 1) = os.toNat * (j + 1 + 1) := by ring
      congr 1
      rw [div_div, ← pow_add, he]

lemma interleave_out_length (nc : ℕ) (l : List ℚ) :
    (interleave_out nc l).length = l.length * nc := by
  induction l with
  | nil => simp [interleave_out]
  | cons x rest ih =>
    show (List.replicate nc x ++ interleave_out nc rest).length = _
    rw [List.length_append, List.length_replicate, ih, List.length_cons]
    ring

/-- C8: over two consecutive `Process` calls with all-zero input, the
sequence of output sample values decays geometrically: each sample equals
the initial `last_output` divided by `2^(oversample × (j + 1))` and by
`oversample` (each inner oversampling iteration halves the stored state),
so successive output magnitudes are non-increasing and bounded by
`|last_output| / 2^(j+1)`, which converges to zero. -/
theorem zero_input_decay (ctx ctx1 ctx2 : CircuitContext) (out1 out2 : List ℚ)
    (n1 n2 nc : ℕ) (hnc : 1 ≤ nc) (hos : 1 ≤ ctx.oversample)
    (hp1 : 0 ≤ ctx.parameters.p1)
    (h1 : circuit_process ctx (fun _ => 0) n1 nc = (out1, ctx1))
    (h2 : circuit_process ctx1 (fun _ => 0) n2 nc = (out2, ctx2)) :
    (∀ j, j < n1 + n2 →
      |(out1 ++ out2).getD (j * nc) 0| =
        |ctx.internal_state.last_output| /
          2 ^ (ctx.oversample.toNat * (j + 1)) / (ctx.oversample : ℚ)) ∧
    (∀ j, j + 1 < n1 + n2 →
      |(out1 ++ out2).getD ((j + 1) * nc) 0| ≤
        |(out1 ++ out2).getD (j * nc) 0|) ∧
    (∀ j, j < n1 + n2 →
      |(out1 ++ out2).getD (j * nc) 0| ≤
        |ctx.internal_state.last_output| / 2 ^ (j + 1)) := by
  have hctx1 : (circuit_process ctx (fun _ => 0) n1 nc).2 = ctx1 := by rw [h1]
  subst hctx1
  have hout1 : (circuit_process ctx (fun _ => 0) n1 nc).1 = out1 := by rw [h1]
  subst hout1
  have hout2 : (circuit_process ((circuit_process ctx (fun _ => 0) n1 nc).2)
      (fun _ => 0) n2 nc).1 = out2 := by rw [h2]
  subst hout2
  have ht : 0 ≤ processThreshold ctx := by
    have h9 : 0 ≤ ctx.parameters.p1 * (9/10) := mul_nonneg hp1 (by norm_num)
    unfold processThreshold
    linarith
  have hosQ : (0:ℚ) < (ctx.oversample : ℚ) := by
    exact_mod_cast (show (0:ℤ) < ctx.oversample by omega)
  have hcomb : (circuit_process ctx (fun _ => 0) n1 nc).1 ++
      (circuit_process (circuit_process ctx (fun _ => 0) n1 nc).2
        (fun _ => 0) n2 nc).1 =
      (circuit_process ctx (fun _ => 0) (n1 + n2) nc).1 :=
    (circuit_process_append ctx (fun _ => 0) n1 n2 nc).1
  have hval : ∀ j, j < n1 + n2 →
      (circuit_process ctx (fun _ => 0) (n1 + n2) nc).1.getD (j * nc) 0 =
        ctx.internal_state.last_output /
          2 ^ (ctx.oversample.toNat * (j + 1)) / (ctx.oversample : ℚ) := by
    intro j hj
    have e1 : (circuit_process ctx (fun _ => 0) (n1 + n2) nc).1 =
        interleave_out nc (process_loop (processGain ctx) (processThreshold ctx)
          (processVolume ctx) ctx.oversample nc (fun _ => 0) 0 (n1 + n2)
          ctx.internal_state.last_output).1 := rfl
    rw [e1]
    have hlen : j < (process_loop (processGain ctx) (processThreshold ctx)
        (processVolume ctx) ctx.oversample nc (fun _ => 0) 0 (n1 + n2)
        ctx.internal_state.last_output).1.length := by
      rw [process_loop_length]
      exact hj
    have hg := interleave_getD nc (process_loop (processGain ctx)
      (processThreshold ctx) (processVolume ctx) ctx.oversample nc (fun _ => 0)
      0 (n1 + n2) ctx.internal_state.last_output).1 j 0 (by omega) hlen
    rw [Nat.add_zero] at hg
    rw [hg]
    exact process_loop_zero_getD (processGain ctx) (processThreshold ctx)
      (processVolume ctx) ctx.oversample nc hos ht (n1 + n2) j 0
      ctx.internal_state.last_output hj
  have habs : ∀ e : ℕ,
      |ctx.internal_state.last_output / 2 ^ e / (ctx.oversample : ℚ)| =
        |ctx.internal_state.last_output| / 2 ^ e / (ctx.oversample : ℚ) := by
    intro e
    rw [abs_div, abs_div, abs_of_pos (pow_pos (by norm_num : (0:ℚ) < 2) e),
      abs_of_pos hosQ]
  refine ⟨?_, ?_, ?_⟩
  · intro j hj
    rw [hcomb, hval j hj, habs]
  · intro j hj
    rw [hcomb, hval (j + 1) hj, hval j (by omega), habs, habs]
    have hexp : ctx.oversample.toNat * (j + 1) ≤
        ctx.oversample.toNat * (j + 1 + 1) :=
      Nat.mul_le_mul_left _ (by omega)
    gcongr
    norm_num
  · intro j hj
    rw [hcomb, hval j hj, habs]
    have h1q : (1:ℚ) ≤ (ctx.oversample : ℚ) := by exact_mod_cast hos
    have hexp : j + 1 ≤ ctx.oversample.toNat * (j + 1) :=
      Nat.le_mul_of_pos_left _ (by omega)
    calc |ctx.internal_state.last_output| /
          2 ^ (ctx.oversample.toNat * (j + 1)) / (ctx.oversample : ℚ) ≤
        |ctx.internal_state.last_output| / 2 ^ (j + 1) / (ctx.oversample : ℚ) := by
          gcongr
          norm_num
      _ ≤ |ctx.internal_state.last_output| / 2 ^ (j + 1) / 1 := by gcongr
      _ = |ctx.internal_state.last_output| / 2 ^ (j + 1) := by rw [div_one]

/-- Witness for C8: two one-frame zero-input calls on a fresh mono
instance with oversample 1. -/
theorem zero_input_decay_witness :
    (∀ j, j < 1 + 1 →
      |(((circuit_process (initCtx 48000 256 1) (fun _ => 0) 1 1).1 ++
        (circuit_process (circuit_process (initCtx 48000 256 1)
          (fun _ => 0) 1 1).2 (fun _ => 0) 1 1).1)).getD (j * 1) 0| =
        |(initCtx 48000 256 1).internal_state.last_output| /
          2 ^ ((initCtx 48000 256 1).oversample.toNat * (j + 1)) /
          ((initCtx 48000 256 1).oversample : ℚ)) ∧
    (∀ j, j + 1 < 1 + 1 →
      |(((circuit_process (initCtx 48000 256 1) (fun _ => 0) 1 1).1 ++
        (circuit_process (circuit_process (initCtx 48000 256 1)
          (fun _ => 0) 1 1).2 (fun _ => 0) 1 1).1)).getD ((j + 1) * 1) 0| ≤
        |(((circuit_process (initCtx 48000 256 1) (fun _ => 0) 1 1).1 ++
          (circuit_process (circuit_process (initCtx 48000 256 1)
            (fun _ => 0) 1 1).2 (fun _ => 0) 1 1).1)).getD (j * 1) 0|) ∧
    (∀ j, j < 1 + 1 →
      |(((circuit_process (initCtx 48000 256 1) (fun _ => 0) 1 1).1 ++
        (circuit_process (circuit_process (initCtx 48000 256 1)
          (fun _ => 0) 1 1).2 (fun _ => 0) 1 1).1)).getD (j * 1) 0| ≤
        |(initCtx 48000 256 1).internal_state.last_output| / 2 ^ (j + 1)) :=
  zero_input_decay (initCtx 48000 256 1)
    (circuit_process (initCtx 48000 256 1) (fun _ => 0) 1 1).2
    (circuit_process (circuit_process (initCtx 48000 256 1)
      (fun _ => 0) 1 1).2 (fun _ => 0) 1 1).2
    (circuit_process (initCtx 48000 256 1) (fun _ => 0) 1 1).1
    (circuit_process (circuit_process (initCtx 48000 256 1)
      (fun _ => 0) 1 1).2 (fun _ => 0) 1 1).1
    1 1 1 (by norm_num) (by decide) (by norm_num [initCtx]) rfl rfl

end LiveSPICE
